import Mathlib

/-!
Verification of the cve_watch vulnerability lookup engine.

This file shallowly embeds the core algorithms of the repository:
  * `NVDClient._cve_affects_version` (src/nvd_client.py) — the version match
    validator that decides whether a feed record applies to an installed version;
  * `Database.cache_cves` / `Database.get_cached_cves` (src/database.py) — the
    persistent TTL cache, modelled as a pure state machine over row lists;
  * `NVDClient.search_cves_batch` (src/nvd_client.py) — the batch scheduler,
    modelled with an explicit fetch oracle, producing the results dictionary and
    the trace of progress-callback invocations;
  * `NVDClient._filter_old_cves` (src/nvd_client.py) — the age filter;
  * the cache-or-query classification loop of `_run_scan` (src/main.py).

Machine timestamps are modelled as integers (seconds); Python `datetime`
ISO-serialisation round-trips and is modelled as the identity on these integers.
Floating-point CVSS scores are modelled as rationals (SQLite REAL preserves
them exactly).
-/

namespace CveWatch

/-- `Severity` enum from src/models.py. -/
inductive Severity where
  | NONE
  | LOW
  | MEDIUM
  | HIGH
  | CRITICAL
  | UNKNOWN
deriving DecidableEq, Repr

/-- `Severity.value`: the string payload of each enum member (src/models.py). -/
def Severity.value : Severity → String
  | .NONE => "NONE"
  | .LOW => "LOW"
  | .MEDIUM => "MEDIUM"
  | .HIGH => "HIGH"
  | .CRITICAL => "CRITICAL"
  | .UNKNOWN => "UNKNOWN"

/-- `Severity(s)` constructor lookup: `some` on a valid payload string,
`none` where Python would raise `ValueError`. -/
def severityOfValue (s : String) : Option Severity :=
  if s = "NONE" then some .NONE
  else if s = "LOW" then some .LOW
  else if s = "MEDIUM" then some .MEDIUM
  else if s = "HIGH" then some .HIGH
  else if s = "CRITICAL" then some .CRITICAL
  else if s = "UNKNOWN" then some .UNKNOWN
  else none

/-- `CVERecord` dataclass from src/models.py.  Timestamps are integer seconds,
scores rationals. -/
structure CVERecord where
  cve_id : String
  description : String
  severity : Severity
  score : Option ℚ := none
  published : Option ℤ := none
  last_modified : Option ℤ := none
  affected_versions : List String := []
  references : List String := []
deriving DecidableEq, Repr

/-- `InstalledApp` dataclass from src/models.py. -/
structure InstalledApp where
  name : String
  version : String
  source : String
  bundle_id : Option String := none
  path : Option String := none
deriving DecidableEq, Repr

/-! ## Version match validator (`NVDClient._cve_affects_version`) -/

/-- One `cpeMatch` entry of an NVD applicability configuration.  `criteria`
defaults to `""` and `vulnerable` to `false` when absent, exactly as
`match.get("criteria", "")` / `match.get("vulnerable", False)` do. -/
structure CpeMatch where
  criteria : String := ""
  vulnerable : Bool := false
  versionStartIncluding : Option String := none
  versionStartExcluding : Option String := none
  versionEndIncluding : Option String := none
  versionEndExcluding : Option String := none
deriving DecidableEq, Repr

/-- One `nodes` entry of a configuration. -/
structure Node where
  cpeMatch : List CpeMatch := []
deriving DecidableEq, Repr

/-- One `configurations` entry of a CVE record. -/
structure Config where
  nodes : List Node := []
deriving DecidableEq, Repr

/-- The applicability-relevant part of a raw CVE entry (`cve_data`). -/
structure CveData where
  configurations : List Config := []
deriving DecidableEq, Repr

/-- `_DATE_RE = re.compile(r"^\d{4}-\d{2}-\d{2}$")`, used via `.match`:
anchored at the start, and `$` also accepts one trailing newline. -/
def dateShaped (s : String) : Bool :=
  match s.data with
  | [y1, y2, y3, y4, h1, m1, m2, h2, d1, d2] =>
      y1.isDigit && y2.isDigit && y3.isDigit && y4.isDigit && (h1 == '-') &&
      m1.isDigit && m2.isDigit && (h2 == '-') && d1.isDigit && d2.isDigit
  | [y1, y2, y3, y4, h1, m1, m2, h2, d1, d2, nl] =>
      y1.isDigit && y2.isDigit && y3.isDigit && y4.isDigit && (h1 == '-') &&
      m1.isDigit && m2.isDigit && (h2 == '-') && d1.isDigit && d2.isDigit &&
      (nl == '\n')
  | _ => false

/-- Helper for `semverShaped`: after one leading digit, consume further digits,
then require a literal dot followed by a digit. -/
def semverTail : List Char → Bool
  | [] => false
  | c :: rest =>
    if c.isDigit then semverTail rest
    else if c == '.' then
      match rest with
      | [] => false
      | d :: _ => d.isDigit
    else false

/-- `_SEMVER_RE = re.compile(r"^\d+\.\d+")` used via `.match`: the string starts
with one or more digits, then a dot, then a digit. -/
def semverShaped (s : String) : Bool :=
  match s.data with
  | [] => false
  | c :: rest => c.isDigit && semverTail rest

/-- Python `str.split(sep)` for a one-character separator, on the character
list: splits at every occurrence, keeping empty fields, and yields `[""]` on
the empty string. -/
def splitOnChar (sep : Char) : List Char → List (List Char)
  | [] => [[]]
  | c :: rest =>
    match splitOnChar sep rest with
    | [] => [[]]
    | g :: gs => if c = sep then [] :: g :: gs else (c :: g) :: gs

/-- `match.get("criteria", "").split(":")` followed by the `len(parts) < 6`
guard and the `parts[3], parts[4], parts[5]` projections. -/
def cpeFields (criteria : String) : Option (String × String × String) :=
  let parts := (splitOnChar ':' criteria.data).map String.mk
  if parts.length < 6 then none
  else some (parts.getD 3 "", parts.getD 4 "", parts.getD 5 "")

/-- Effect of processing one `cpeMatch` rule in the scan loop of
`_cve_affects_version`:
  * `skip` — malformed criteria or vendor/product mismatch (`continue`);
  * `found` — matching vulnerable rule that decides nothing
    (sets `found_vendor_product` and falls through);
  * `excl` — matching rule with `vulnerable` false
    (sets `found_vendor_product` and `explicitly_not_vulnerable`);
  * `ret b` — early `return b`. -/
inductive RuleOut where
  | skip
  | found
  | excl
  | ret (b : Bool)
deriving DecidableEq, Repr

/-- The boundary list `[versionStartIncluding, versionStartExcluding,
versionEndIncluding, versionEndExcluding]` of a rule. -/
def boundariesOf (m : CpeMatch) : List (Option String) :=
  [m.versionStartIncluding, m.versionStartExcluding,
   m.versionEndIncluding, m.versionEndExcluding]

/-- The body of the innermost loop of `_cve_affects_version`, for a single
`cpeMatch` rule.  `semver` is the precomputed `installed_is_semver`. -/
def ruleOut (vendor product installed : String) (semver : Bool)
    (m : CpeMatch) : RuleOut :=
  match cpeFields m.criteria with
  | none => .skip
  | some (cv, cp, cver) =>
    if cv = vendor ∧ cp = product then
      if m.vulnerable then
        if cver = installed then .ret true
        else if cver = "*" then
          if (boundariesOf m).all Option.isNone then .ret true
          else if semver ∧ (boundariesOf m).any
              (fun b => b.any (fun s => !s.isEmpty && dateShaped s)) then
            .ret false
          else .ret true
        else .found
      else .excl
    else .skip

/-- The scan over a list of `cpeMatch` rules, threading the two flags
`found_vendor_product` / `explicitly_not_vulnerable` and propagating an early
return as `some b`. -/
def scanMatches (vendor product installed : String) (semver : Bool) :
    List CpeMatch → Bool → Bool → Option Bool × Bool × Bool
  | [], found, excl => (none, found, excl)
  | m :: ms, found, excl =>
    match ruleOut vendor product installed semver m with
    | .skip => scanMatches vendor product installed semver ms found excl
    | .found => scanMatches vendor product installed semver ms true excl
    | .excl => scanMatches vendor product installed semver ms true true
    | .ret b => (some b, found, excl)

/-- The scan over the `nodes` of one configuration. -/
def scanNodes (vendor product installed : String) (semver : Bool) :
    List Node → Bool → Bool → Option Bool × Bool × Bool
  | [], found, excl => (none, found, excl)
  | n :: ns, found, excl =>
    match scanMatches vendor product installed semver n.cpeMatch found excl with
    | (some b, f, e) => (some b, f, e)
    | (none, f, e) => scanNodes vendor product installed semver ns f e

/-- The scan over all `configurations`. -/
def scanConfigs (vendor product installed : String) (semver : Bool) :
    List Config → Bool → Bool → Option Bool × Bool × Bool
  | [], found, excl => (none, found, excl)
  | c :: cs, found, excl =>
    match scanNodes vendor product installed semver c.nodes found excl with
    | (some b, f, e) => (some b, f, e)
    | (none, f, e) => scanConfigs vendor product installed semver cs f e

/-- `NVDClient._cve_affects_version` (src/nvd_client.py, lines 199-260). -/
def cveAffectsVersion (cve : CveData) (vendor product installed : String) :
    Bool :=
  if cve.configurations = [] then true
  else
    match scanConfigs vendor product installed (semverShaped installed)
        cve.configurations false false with
    | (some b, _, _) => b
    | (none, found, excl) => !(found && excl)

/-- All `cpeMatch` rules of a CVE entry, in scan order. -/
def flatMatches (cve : CveData) : List CpeMatch :=
  ((cve.configurations.map Config.nodes).flatten.map Node.cpeMatch).flatten

/-! ## Vulnerability cache (`Database`, src/database.py) -/

/-- Python `str.lower()`, modelled characterwise. -/
def strToLower (s : String) : String := String.mk (s.data.map Char.toLower)

/-- `CACHE_TTL_HOURS = 24 * 7` (src/database.py line 11). -/
def cacheTtlHours : ℤ := 24 * 7

/-- The TTL in model time units (seconds). -/
def cacheTtlSeconds : ℤ := cacheTtlHours * 3600

/-- One row of the `cve_cache` table.  The schema has no `references` column. -/
structure CveRow where
  app_name : String
  app_version : String
  cve_id : String
  description : String
  severity : String
  score : Option ℚ
  published : Option ℤ
  last_modified : Option ℤ
  affected_versions : List String
  cached_at : ℤ
deriving DecidableEq, Repr

/-- One row of the `lookup_cache` table. -/
structure LookupRow where
  app_name : String
  app_version : String
  cached_at : ℤ
deriving DecidableEq, Repr

/-- The two cache tables of the SQLite database. -/
structure DbState where
  cve_cache : List CveRow := []
  lookup_cache : List LookupRow := []
deriving DecidableEq, Repr

/-- The empty database produced by `_init_tables`. -/
def emptyDb : DbState := {}

/-- The row written for one record by `cache_cves`: every stored column of
`CVERecord` serialised; `references` has no column and is not stored. -/
def toRow (key ver : String) (now : ℤ) (cve : CVERecord) : CveRow :=
  { app_name := key
  , app_version := ver
  , cve_id := cve.cve_id
  , description := cve.description
  , severity := cve.severity.value
  , score := cve.score
  , published := cve.published
  , last_modified := cve.last_modified
  , affected_versions := cve.affected_versions
  , cached_at := now }

/-- `INSERT OR REPLACE` into `cve_cache`: the conflicting row (same primary key
`(app_name, app_version, cve_id)`) is deleted and the new row appended. -/
def insertOrReplaceCve (rows : List CveRow) (r : CveRow) : List CveRow :=
  rows.filter (fun x =>
    ¬(x.app_name = r.app_name ∧ x.app_version = r.app_version ∧
      x.cve_id = r.cve_id)) ++ [r]

/-- `Database.cache_cves` (src/database.py lines 84-123): delete both tables'
rows for the lowercased key, insert one `cve_cache` row per record, then the
`lookup_cache` stamp row. -/
def cacheCves (db : DbState) (now : ℤ) (name ver : String)
    (cves : List CVERecord) : DbState :=
  { cve_cache := cves.foldl (fun rows cve =>
      insertOrReplaceCve rows (toRow (strToLower name) ver now cve))
      (db.cve_cache.filter (fun r =>
        ¬(r.app_name = strToLower name ∧ r.app_version = ver)))
  , lookup_cache := db.lookup_cache.filter (fun r =>
      ¬(r.app_name = strToLower name ∧ r.app_version = ver)) ++
      [⟨strToLower name, ver, now⟩] }

/-- `Database._row_to_cve` (src/database.py lines 158-167).  `references` is
not among the columns, so the dataclass default `[]` is used. -/
def rowToCve (r : CveRow) : CVERecord :=
  { cve_id := r.cve_id
  , description := if r.description = "" then "" else r.description
  , severity := if r.severity = "" then Severity.UNKNOWN
                else (severityOfValue r.severity).getD Severity.UNKNOWN
  , score := r.score
  , published := r.published
  , last_modified := r.last_modified
  , affected_versions := r.affected_versions
  , references := [] }

/-- `Database.get_cached_cves` (src/database.py lines 63-82): read the
`lookup_cache` stamp for the lowercased key, treat the entry as absent when
`now - cached_at > TTL`, otherwise return all matching `cve_cache` rows. -/
def getCachedCves (db : DbState) (now : ℤ) (name ver : String) :
    Option (List CVERecord) :=
  match db.lookup_cache.find? (fun r =>
      r.app_name = strToLower name ∧ r.app_version = ver) with
  | none => none
  | some row =>
    if now - row.cached_at > cacheTtlSeconds then none
    else some ((db.cve_cache.filter (fun r =>
      r.app_name = strToLower name ∧ r.app_version = ver)).map rowToCve)

/-! ## Batch query scheduler (`NVDClient.search_cves_batch`) -/

/-- `BATCH_SIZE_NO_KEY = 5` (src/nvd_client.py line 19). -/
def batchSizeNoKey : ℕ := 5

/-- `BATCH_SIZE_WITH_KEY = 40` (src/nvd_client.py line 20). -/
def batchSizeWithKey : ℕ := 40

/-- `apps[batch_start:batch_start + size]` chunking of
`range(0, total, size)`, with fuel bounded by the list length. -/
def chunksAux (size : ℕ) : ℕ → List InstalledApp → List (List InstalledApp)
  | 0, _ => []
  | _ + 1, [] => []
  | fuel + 1, x :: xs =>
      (x :: xs).take size :: chunksAux size fuel ((x :: xs).drop size)

/-- The batches processed by `search_cves_batch`. -/
def chunks (size : ℕ) (apps : List InstalledApp) : List (List InstalledApp) :=
  chunksAux size apps.length apps

/-- The results-dictionary key `f"{app.name}:{app.version}"`. -/
def appKey (a : InstalledApp) : String := a.name ++ ":" ++ a.version

/-- `batch.index(app)`: index of the first element equal to `app`. -/
def batchIndexOf (batch : List InstalledApp) (app : InstalledApp) : ℕ :=
  batch.findIdx (fun x => x = app)

/-- Python dict update `results[key] = value`. -/
def dictInsert (d : String → Option (List CVERecord)) (key : String)
    (v : List CVERecord) : String → Option (List CVERecord) :=
  fun k => if k = key then some v else d k

/-- The value stored for one application: its fetch result, or `[]` when the
fetch raised (`isinstance(result, Exception)` branch). -/
def fetchOutcome (fetch : InstalledApp → Except String (List CVERecord))
    (a : InstalledApp) : List CVERecord :=
  match fetch a with
  | .ok v => v
  | .error _ => []

/-- The `for app, result in zip(batch, batch_results)` loop of one batch:
store each outcome under its key and invoke the progress callback with
`idx = batch_start + batch.index(app) + 1`. -/
def processBatch (fetch : InstalledApp → Except String (List CVERecord))
    (total batchStart : ℕ) (batch : List InstalledApp)
    (st : (String → Option (List CVERecord)) × List (ℕ × ℕ × String)) :
    (String → Option (List CVERecord)) × List (ℕ × ℕ × String) :=
  batch.foldl (fun st a =>
    (dictInsert st.1 (appKey a) (fetchOutcome fetch a),
     st.2 ++ [(batchStart + batchIndexOf batch a + 1, total, a.name)])) st

/-- `NVDClient.search_cves_batch` (src/nvd_client.py lines 97-128), with the
network modelled by a fetch oracle.  Returns the results dictionary and the
trace of progress-callback invocations `(idx, total, name)`. -/
def searchCvesBatch (fetch : InstalledApp → Except String (List CVERecord))
    (size : ℕ) (apps : List InstalledApp) :
    (String → Option (List CVERecord)) × List (ℕ × ℕ × String) :=
  (chunks size apps).enum.foldl
    (fun st p => processBatch fetch apps.length (p.1 * size) p.2 st)
    (fun _ => none, [])

/-! ## Age filter (`NVDClient._filter_old_cves`) -/

/-- `CVE_MAX_AGE_YEARS = 4` (src/nvd_client.py line 23). -/
def cveMaxAgeYears : ℤ := 4

/-- `cutoff = datetime.now(timezone.utc) - timedelta(days=CVE_MAX_AGE_YEARS * 365)`
in seconds. -/
def ageCutoff (now : ℤ) : ℤ := now - cveMaxAgeYears * 365 * 86400

/-- `NVDClient._filter_old_cves` (src/nvd_client.py lines 301-315): keep
records with no published date, keep records with `published >= cutoff`,
drop the rest. -/
def filterOldCves (cutoff : ℤ) : List CVERecord → List CVERecord
  | [] => []
  | c :: rest =>
    match c.published with
    | none => c :: filterOldCves cutoff rest
    | some p =>
      if p ≥ cutoff then c :: filterOldCves cutoff rest
      else filterOldCves cutoff rest

/-! ## Identity resolver table and scan classification -/

/-- `APP_NAME_MAP` (src/nvd_client.py lines 26-66). -/
def appNameMap : List (String × String × String) :=
  [ ("firefox", "mozilla", "firefox")
  , ("google chrome", "google", "chrome")
  , ("chrome", "google", "chrome")
  , ("safari", "apple", "safari")
  , ("visual studio code", "microsoft", "visual_studio_code")
  , ("vscode", "microsoft", "visual_studio_code")
  , ("slack", "slack", "slack")
  , ("zoom", "zoom", "zoom")
  , ("docker", "docker", "docker_desktop")
  , ("docker desktop", "docker", "docker_desktop")
  , ("vlc", "videolan", "vlc_media_player")
  , ("iterm2", "iterm2", "iterm2")
  , ("iterm", "iterm2", "iterm2")
  , ("python", "python", "python")
  , ("node", "nodejs", "node.js")
  , ("nodejs", "nodejs", "node.js")
  , ("git", "git-scm", "git")
  , ("curl", "haxx", "curl")
  , ("wget", "gnu", "wget")
  , ("openssl", "openssl", "openssl")
  , ("nginx", "f5", "nginx")
  , ("apache", "apache", "http_server")
  , ("httpd", "apache", "http_server")
  , ("postgresql", "postgresql", "postgresql")
  , ("mysql", "oracle", "mysql")
  , ("redis", "redis", "redis")
  , ("sqlite", "sqlite", "sqlite")
  , ("ffmpeg", "ffmpeg", "ffmpeg")
  , ("imagemagick", "imagemagick", "imagemagick")
  , ("7-zip", "7-zip", "7-zip")
  , ("the unarchiver", "macpaw", "the_unarchiver")
  , ("wireshark", "wireshark", "wireshark")
  , ("gimp", "gimp", "gimp")
  , ("libreoffice", "libreoffice", "libreoffice")
  , ("thunderbird", "mozilla", "thunderbird")
  , ("telegram", "telegram", "telegram_desktop")
  , ("signal", "signal", "signal-desktop")
  , ("1password", "1password", "1password")
  , ("keepassxc", "keepassxc", "keepassxc") ]

/-- `NVDClient.has_known_cpe` (src/nvd_client.py lines 88-89):
`app.name.lower() in APP_NAME_MAP`. -/
def hasKnownCpe (app : InstalledApp) : Bool :=
  appNameMap.any (fun p => p.1 = strToLower app.name)

/-- The per-application classification state of `_run_scan`:
database, `cached_apps`, `to_query`. -/
def ClassifyState : Type :=
  DbState × List (InstalledApp × List CVERecord) × List InstalledApp

/-- One iteration of the classification loop of `_run_scan`
(src/main.py lines 172-180). -/
def classifyStep (now : ℤ) (st : ClassifyState) (app : InstalledApp) :
    ClassifyState :=
  match getCachedCves st.1 now app.name app.version with
  | some cached => (st.1, st.2.1 ++ [(app, cached)], st.2.2)
  | none =>
    if hasKnownCpe app then (st.1, st.2.1, st.2.2 ++ [app])
    else (cacheCves st.1 now app.name app.version [],
          st.2.1 ++ [(app, [])], st.2.2)

/-- The whole classification loop of `_run_scan`. -/
def classifyApps (now : ℤ) (db : DbState) (apps : List InstalledApp) :
    ClassifyState :=
  apps.foldl (classifyStep now) (db, [], [])

/-! ## Derived predicates on match rules -/

/-- The final verdict of the scan loop on a rule list: an early return wins,
otherwise `found_vendor_product ∧ explicitly_not_vulnerable` means "does not
apply". -/
def scanVerdict (vendor product installed : String) (semver : Bool)
    (ms : List CpeMatch) (f e : Bool) : Bool :=
  match scanMatches vendor product installed semver ms f e with
  | (some b, _, _) => b
  | (none, f', e') => !(f' && e')

/-- A rule whose criteria parse and whose vendor/product equal the queried
identity. -/
def matchesIdentity (vendor product : String) (m : CpeMatch) : Bool :=
  match cpeFields m.criteria with
  | none => false
  | some (cv, cp, _) => (cv == vendor) && (cp == product)

/-- A matching vulnerable rule whose pinned version equals the installed
version exactly — the short-circuit "highest-confidence" case. -/
def isPinHit (vendor product installed : String) (m : CpeMatch) : Bool :=
  match cpeFields m.criteria with
  | none => false
  | some (cv, cp, cver) =>
    (cv == vendor) && (cp == product) && m.vulnerable && (cver == installed)

/-- A matching vulnerable wildcard rule carrying range boundaries, at least
one of which is calendar-date-shaped, while the installed version is
semver-shaped: the rule the guarded edge case rejects with `return False`. -/
def isDateRejectRule (vendor product installed : String) (m : CpeMatch) :
    Bool :=
  match cpeFields m.criteria with
  | none => false
  | some (cv, cp, cver) =>
    (cv == vendor) && (cp == product) && m.vulnerable && (cver == "*") &&
    !((boundariesOf m).all Option.isNone) &&
    semverShaped installed &&
    (boundariesOf m).any (fun b => b.any (fun s => !s.isEmpty && dateShaped s))

/-- Results component of the per-application update loop, chunking ignored:
used to relate the batched fold to a single fold over all applications. -/
def resultsAfter (fetch : InstalledApp → Except String (List CVERecord))
    (as : List InstalledApp) (acc : String → Option (List CVERecord)) :
    String → Option (List CVERecord) :=
  as.foldl (fun res a => dictInsert res (appKey a) (fetchOutcome fetch a)) acc

/-! ## Concrete data used in counterexamples and witnesses -/

/-- A matching vulnerable rule pinning version `8.5.0` of mozilla/firefox. -/
def pinRule : CpeMatch :=
  { criteria := "cpe:2.3:a:mozilla:firefox:8.5.0:*:*:*:*:*:*:*"
  , vulnerable := true }

/-- A matching vulnerable wildcard rule with a calendar-date start boundary. -/
def dateRule : CpeMatch :=
  { criteria := "cpe:2.3:a:mozilla:firefox:*:*:*:*:*:*:*:*"
  , vulnerable := true
  , versionStartIncluding := some "2020-01-01" }

/-- A matching rule explicitly marked not vulnerable. -/
def exclRule : CpeMatch :=
  { criteria := "cpe:2.3:a:mozilla:firefox:*:*:*:*:*:*:*:*"
  , vulnerable := false }

/-- Configuration scanning the date-boundary rule before the pinned rule. -/
def cveDateThenPin : CveData :=
  { configurations := [{ nodes := [{ cpeMatch := [dateRule, pinRule] }] }] }

/-- Configuration scanning the pinned rule before the date-boundary rule. -/
def cvePinThenDate : CveData :=
  { configurations := [{ nodes := [{ cpeMatch := [pinRule, dateRule] }] }] }

/-- Configuration holding only the pinned rule. -/
def cvePinOnly : CveData :=
  { configurations := [{ nodes := [{ cpeMatch := [pinRule] }] }] }

/-- Configuration holding only the date-boundary rule. -/
def cveDateOnly : CveData :=
  { configurations := [{ nodes := [{ cpeMatch := [dateRule] }] }] }

/-- Configuration holding only the exclusion rule. -/
def cveExclOnly : CveData :=
  { configurations := [{ nodes := [{ cpeMatch := [exclRule] }] }] }

/-- A record carrying a non-empty reference list. -/
def recWithRefs : CVERecord :=
  { cve_id := "CVE-2024-0001"
  , description := "d"
  , severity := .HIGH
  , references := ["http://example.com/advisory"] }

/-- Two distinct records sharing one CVE id (collides in the cache's primary
key). -/
def recDupA : CVERecord :=
  { cve_id := "CVE-2024-0002", description := "first", severity := .LOW }

/-- Second record with the same CVE id as `recDupA`. -/
def recDupB : CVERecord :=
  { cve_id := "CVE-2024-0002", description := "second", severity := .HIGH }

/-- Erase the `references` field, as the cache round-trip does. -/
def stripRefs (r : CVERecord) : CVERecord := { r with references := [] }

/-- A concrete installed application with a known identity. -/
def slackApp : InstalledApp :=
  { name := "slack", version := "1.0", source := "brew" }

/-- A concrete installed application with no entry in the resolver table. -/
def unknownApp : InstalledApp :=
  { name := "UnknownTool", version := "1.0", source := "manual" }

/-- A fetch oracle that fails exactly on version `"2"`. -/
def fetchFailOn2 (a : InstalledApp) : Except String (List CVERecord) :=
  if a.version = "2" then .error "boom" else .ok [recWithRefs]

/-! # Lemmas about the version match validator -/

theorem scanVerdict_nil (vendor product installed : String) (sv f e : Bool) :
    scanVerdict vendor product installed sv [] f e = !(f && e) := rfl

theorem scanVerdict_cons (vendor product installed : String) (sv : Bool)
    (m : CpeMatch) (ms : List CpeMatch) (f e : Bool) :
    scanVerdict vendor product installed sv (m :: ms) f e =
      match ruleOut vendor product installed sv m with
      | .skip => scanVerdict vendor product installed sv ms f e
      | .found => scanVerdict vendor product installed sv ms true e
      | .excl => scanVerdict vendor product installed sv ms true true
      | .ret b => b := by
  cases hro : ruleOut vendor product installed sv m <;>
    simp [scanVerdict, scanMatches, hro]

theorem scanMatches_append (vendor product installed : String) (sv : Bool)
    (xs ys : List CpeMatch) (f e : Bool) :
    scanMatches vendor product installed sv (xs ++ ys) f e =
      match scanMatches vendor product installed sv xs f e with
      | (some b, f', e') => (some b, f', e')
      | (none, f', e') => scanMatches vendor product installed sv ys f' e' := by
  induction xs generalizing f e with
  | nil => simp [scanMatches]
  | cons m ms ih =>
    simp only [List.cons_append, scanMatches]
    cases ruleOut vendor product installed sv m <;> simp [ih]

theorem scanNodes_flatten (vendor product installed : String) (sv : Bool)
    (ns : List Node) (f e : Bool) :
    scanNodes vendor product installed sv ns f e =
      scanMatches vendor product installed sv
        ((ns.map Node.cpeMatch).flatten) f e := by
  induction ns generalizing f e with
  | nil => rfl
  | cons n ns ih =>
    simp only [List.map_cons, List.flatten_cons, scanMatches_append, scanNodes]
    rcases h : scanMatches vendor product installed sv n.cpeMatch f e with
      ⟨o, f', e'⟩
    cases o <;> simp [ih]

theorem scanConfigs_flatten (vendor product installed : String) (sv : Bool)
    (cs : List Config) (f e : Bool) :
    scanConfigs vendor product installed sv cs f e =
      scanMatches vendor product installed sv
        (((cs.map Config.nodes).flatten.map Node.cpeMatch).flatten) f e := by
  induction cs generalizing f e with
  | nil => rfl
  | cons c cs ih =>
    simp only [List.map_cons, List.flatten_cons, List.map_append,
      List.flatten_append, scanMatches_append, scanConfigs, scanNodes_flatten]
    rcases h : scanMatches vendor product installed sv
      ((c.nodes.map Node.cpeMatch).flatten) f e with ⟨o, f', e'⟩
    cases o <;> simp [ih]

/-- `_cve_affects_version` equals the scan verdict over the flattened rule
list (the nested loops carry no per-level state). -/
theorem cveAffectsVersion_eq_verdict (cve : CveData)
    (vendor product installed : String) :
    cveAffectsVersion cve vendor product installed =
      if cve.configurations = [] then true
      else scanVerdict vendor product installed (semverShaped installed)
        (flatMatches cve) false false := by
  unfold cveAffectsVersion scanVerdict flatMatches
  rw [scanConfigs_flatten]

theorem flatMatches_ne_nil_configs (cve : CveData)
    (h : flatMatches cve ≠ []) : cve.configurations ≠ [] := by
  intro hc
  apply h
  unfold flatMatches
  rw [hc]
  rfl

theorem isPinHit_ruleOut (vendor product installed : String) (sv : Bool)
    (m : CpeMatch) (h : isPinHit vendor product installed m = true) :
    ruleOut vendor product installed sv m = .ret true := by
  unfold isPinHit at h
  unfold ruleOut
  rcases hcf : cpeFields m.criteria with _ | ⟨cv, cp, cver⟩
  · rw [hcf] at h; exact absurd h (by simp)
  · rw [hcf] at h
    simp only [Bool.and_eq_true, beq_iff_eq] at h
    obtain ⟨⟨⟨hv, hp⟩, hvul⟩, hver⟩ := h
    simp [hv, hp, hvul, hver]

theorem semverShaped_ne_star (s : String) (h : semverShaped s = true) :
    s ≠ "*" := by
  intro hs
  subst hs
  exact absurd h (by decide)

theorem isDateRejectRule_ruleOut (vendor product installed : String)
    (m : CpeMatch)
    (h : isDateRejectRule vendor product installed m = true) :
    ruleOut vendor product installed (semverShaped installed) m =
      .ret false := by
  unfold isDateRejectRule at h
  unfold ruleOut
  rcases hcf : cpeFields m.criteria with _ | ⟨cv, cp, cver⟩
  · rw [hcf] at h; exact absurd h (by simp)
  · rw [hcf] at h
    simp only [Bool.and_eq_true, beq_iff_eq] at h
    obtain ⟨⟨⟨⟨⟨⟨hv, hp⟩, hvul⟩, hver⟩, hbnd⟩, hsem⟩, hdate⟩ := h
    have hall : ¬ ∀ x ∈ boundariesOf m, x = none := by
      intro hall
      have hx : (boundariesOf m).all Option.isNone = true := by
        rw [List.all_eq_true]
        intro x hx
        rw [hall x hx]
        rfl
      rw [hx] at hbnd
      cases hbnd
    have hnst : ¬(("*" : String) = installed) :=
      fun hh => semverShaped_ne_star installed hsem hh.symm
    simp [hv, hp, hvul, hver, hnst, hall, hsem, hdate]

theorem matchesIdentity_false_skip (vendor product installed : String)
    (sv : Bool) (m : CpeMatch)
    (h : matchesIdentity vendor product m = false) :
    ruleOut vendor product installed sv m = .skip := by
  unfold matchesIdentity at h
  unfold ruleOut
  rcases hcf : cpeFields m.criteria with _ | ⟨cv, cp, cver⟩
  · rfl
  · rw [hcf] at h
    simp only [Bool.and_eq_false_iff, beq_eq_false_iff_ne, ne_eq] at h
    have : ¬(cv = vendor ∧ cp = product) := by
      rcases h with h | h
      · exact fun hh => h hh.1
      · exact fun hh => h hh.2
    simp [this]

theorem exclusion_ruleOut (vendor product installed : String) (sv : Bool)
    (m : CpeMatch) (hm : matchesIdentity vendor product m = true)
    (hv : m.vulnerable = false) :
    ruleOut vendor product installed sv m = .excl := by
  unfold matchesIdentity at hm
  unfold ruleOut
  rcases hcf : cpeFields m.criteria with _ | ⟨cv, cp, cver⟩
  · rw [hcf] at hm; exact absurd hm (by simp)
  · rw [hcf] at hm
    simp only [Bool.and_eq_true, beq_iff_eq] at hm
    simp [hm.1, hm.2, hv]

theorem scanVerdict_ret_true (vendor product installed : String) (sv : Bool) :
    ∀ (ms : List CpeMatch) (f e : Bool),
      (∃ m ∈ ms, ruleOut vendor product installed sv m = .ret true) →
      (∀ m ∈ ms, ruleOut vendor product installed sv m ≠ .ret false) →
      scanVerdict vendor product installed sv ms f e = true
  | [], _, _, hex, _ => by simp at hex
  | m :: ms, f, e, hex, hnf => by
    rw [scanVerdict_cons]
    rcases hro : ruleOut vendor product installed sv m with _ | _ | _ | b
    · exact scanVerdict_ret_true vendor product installed sv ms f e
        (by rcases hex with ⟨x, hx, hrx⟩
            rcases List.mem_cons.mp hx with rfl | hx'
            · rw [hro] at hrx; cases hrx
            · exact ⟨x, hx', hrx⟩)
        (fun x hx => hnf x (List.mem_cons_of_mem m hx))
    · exact scanVerdict_ret_true vendor product installed sv ms true e
        (by rcases hex with ⟨x, hx, hrx⟩
            rcases List.mem_cons.mp hx with rfl | hx'
            · rw [hro] at hrx; cases hrx
            · exact ⟨x, hx', hrx⟩)
        (fun x hx => hnf x (List.mem_cons_of_mem m hx))
    · exact scanVerdict_ret_true vendor product installed sv ms true true
        (by rcases hex with ⟨x, hx, hrx⟩
            rcases List.mem_cons.mp hx with rfl | hx'
            · rw [hro] at hrx; cases hrx
            · exact ⟨x, hx', hrx⟩)
        (fun x hx => hnf x (List.mem_cons_of_mem m hx))
    · cases b
      · exact absurd hro (hnf m (List.mem_cons_self m ms))
      · rfl

theorem scanVerdict_ret_false (vendor product installed : String) (sv : Bool)
    (bad : CpeMatch)
    (hbad : ruleOut vendor product installed sv bad = .ret false) :
    ∀ (pre : List CpeMatch) (post : List CpeMatch) (f e : Bool),
      (∀ m ∈ pre, ∀ b, ruleOut vendor product installed sv m ≠ .ret b) →
      scanVerdict vendor product installed sv (pre ++ bad :: post) f e = false
  | [], post, f, e, _ => by
    rw [List.nil_append, scanVerdict_cons, hbad]
  | m :: pre, post, f, e, hpre => by
    rw [List.cons_append, scanVerdict_cons]
    rcases hro : ruleOut vendor product installed sv m with _ | _ | _ | b
    · exact scanVerdict_ret_false vendor product installed sv bad hbad pre
        post f e (fun x hx => hpre x (List.mem_cons_of_mem m hx))
    · exact scanVerdict_ret_false vendor product installed sv bad hbad pre
        post true e (fun x hx => hpre x (List.mem_cons_of_mem m hx))
    · exact scanVerdict_ret_false vendor product installed sv bad hbad pre
        post true true (fun x hx => hpre x (List.mem_cons_of_mem m hx))
    · exact absurd hro (hpre m (List.mem_cons_self m pre) b)

theorem scanVerdict_excluded (vendor product installed : String) (sv : Bool) :
    ∀ (ms : List CpeMatch) (f e : Bool),
      (∀ m ∈ ms, ruleOut vendor product installed sv m ≠ .ret true) →
      ((∃ m ∈ ms, ruleOut vendor product installed sv m = .excl) ∨
        (f = true ∧ e = true)) →
      scanVerdict vendor product installed sv ms f e = false
  | [], f, e, _, hd => by
    rcases hd with ⟨x, hx, _⟩ | ⟨hf, he⟩
    · simp at hx
    · rw [scanVerdict_nil, hf, he]; rfl
  | m :: ms, f, e, hnt, hd => by
    rw [scanVerdict_cons]
    rcases hro : ruleOut vendor product installed sv m with _ | _ | _ | b
    · exact scanVerdict_excluded vendor product installed sv ms f e
        (fun x hx => hnt x (List.mem_cons_of_mem m hx))
        (by rcases hd with ⟨x, hx, hrx⟩ | hfe
            · rcases List.mem_cons.mp hx with rfl | hx'
              · rw [hro] at hrx; cases hrx
              · exact Or.inl ⟨x, hx', hrx⟩
            · exact Or.inr hfe)
    · exact scanVerdict_excluded vendor product installed sv ms true e
        (fun x hx => hnt x (List.mem_cons_of_mem m hx))
        (by rcases hd with ⟨x, hx, hrx⟩ | hfe
            · rcases List.mem_cons.mp hx with rfl | hx'
              · rw [hro] at hrx; cases hrx
              · exact Or.inl ⟨x, hx', hrx⟩
            · exact Or.inr ⟨rfl, hfe.2⟩)
    · exact scanVerdict_excluded vendor product installed sv ms true true
        (fun x hx => hnt x (List.mem_cons_of_mem m hx))
        (Or.inr ⟨rfl, rfl⟩)
    · cases b
      · rfl
      · exact absurd hro (hnt m (List.mem_cons_self m ms))

theorem scanMatches_all_skip (vendor product installed : String) (sv : Bool) :
    ∀ (ms : List CpeMatch) (f e : Bool),
      (∀ m ∈ ms, ruleOut vendor product installed sv m = .skip) →
      scanMatches vendor product installed sv ms f e = (none, f, e)
  | [], _, _, _ => rfl
  | m :: ms, f, e, h => by
    unfold scanMatches
    rw [h m (List.mem_cons_self m ms)]
    exact scanMatches_all_skip vendor product installed sv ms f e
      (fun x hx => h x (List.mem_cons_of_mem m hx))

/-! # Lemmas about the cache -/

theorem find?_filter_not_key (l : List LookupRow) (key ver : String) :
    (l.filter (fun r => ¬(r.app_name = key ∧ r.app_version = ver))).find?
      (fun r => r.app_name = key ∧ r.app_version = ver) = none := by
  rw [List.find?_eq_none]
  intro x hx
  have hm := (List.mem_filter.mp hx).2
  simp only [decide_not, Bool.not_eq_true', decide_eq_false_iff_not] at hm
  simp only [Bool.not_eq_true, decide_eq_false_iff_not]
  exact hm

/-- After `cache_cves`, a lookup of the same key finds exactly the freshly
stamped `lookup_cache` row and applies the TTL test to it. -/
theorem getCached_after_cache (db : DbState) (t now : ℤ) (name ver : String)
    (cves : List CVERecord) :
    getCachedCves (cacheCves db t name ver cves) now name ver =
      if now - t > cacheTtlSeconds then none
      else some (((cacheCves db t name ver cves).cve_cache.filter
        (fun r => r.app_name = strToLower name ∧ r.app_version = ver)).map
          rowToCve) := by
  unfold getCachedCves
  have hlc : (cacheCves db t name ver cves).lookup_cache =
      db.lookup_cache.filter (fun r =>
        ¬(r.app_name = strToLower name ∧ r.app_version = ver)) ++
      [⟨strToLower name, ver, t⟩] := rfl
  rw [hlc, List.find?_append, find?_filter_not_key]
  simp only [Option.none_or]
  have hrow : List.find? (fun r =>
      r.app_name = strToLower name ∧ r.app_version = ver)
      [(⟨strToLower name, ver, t⟩ : LookupRow)] =
      some ⟨strToLower name, ver, t⟩ := by
    simp [List.find?]
  rw [hrow]

theorem foldl_insertOrReplace (key ver : String) (t : ℤ) :
    ∀ (cves : List CVERecord) (acc : List CveRow),
      (cves.map CVERecord.cve_id).Nodup →
      (∀ r ∈ acc, r.app_name = key → r.app_version = ver →
        r.cve_id ∉ cves.map CVERecord.cve_id) →
      cves.foldl (fun rows cve =>
        insertOrReplaceCve rows (toRow key ver t cve)) acc =
        acc ++ cves.map (toRow key ver t)
  | [], acc, _, _ => by simp
  | c :: cs, acc, hnd, hacc => by
    rw [List.foldl_cons]
    have hfix : insertOrReplaceCve acc (toRow key ver t c) =
        acc ++ [toRow key ver t c] := by
      unfold insertOrReplaceCve
      congr 1
      rw [List.filter_eq_self]
      intro x hx
      simp only [toRow, decide_not, Bool.not_eq_true', decide_eq_false_iff_not]
      rintro ⟨h1, h2, h3⟩
      exact hacc x hx h1 h2 (by
        rw [h3]
        exact List.mem_map_of_mem CVERecord.cve_id (List.mem_cons_self c cs))
    rw [hfix]
    rw [foldl_insertOrReplace key ver t cs (acc ++ [toRow key ver t c])
      ((List.nodup_cons.mp hnd).2)
      (by
        intro r hr h1 h2
        rcases List.mem_append.mp hr with hr' | hr'
        · intro hmem
          exact hacc r hr' h1 h2 (List.mem_cons_of_mem _ hmem)
        · rcases List.mem_singleton.mp hr' with rfl
          exact (List.nodup_cons.mp hnd).1)]
    rw [List.map_cons, List.append_assoc]
    rfl

/-- The rows selected for the key after `cache_cves` are exactly the stored
records, in insertion order, when the records' CVE ids are pairwise
distinct. -/
theorem cache_rows (db : DbState) (t : ℤ) (name ver : String)
    (cves : List CVERecord)
    (hdist : (cves.map CVERecord.cve_id).Nodup) :
    (cacheCves db t name ver cves).cve_cache.filter
      (fun r => r.app_name = strToLower name ∧ r.app_version = ver) =
      cves.map (toRow (strToLower name) ver t) := by
  have hcc : (cacheCves db t name ver cves).cve_cache =
      cves.foldl (fun rows cve =>
        insertOrReplaceCve rows (toRow (strToLower name) ver t cve))
        (db.cve_cache.filter (fun r =>
          ¬(r.app_name = strToLower name ∧ r.app_version = ver))) := rfl
  rw [hcc, foldl_insertOrReplace (strToLower name) ver t cves _ hdist
    (by
      intro r hr h1 h2
      have hm := (List.mem_filter.mp hr).2
      simp only [decide_not, Bool.not_eq_true', decide_eq_false_iff_not] at hm
      exact absurd ⟨h1, h2⟩ hm)]
  rw [List.filter_append]
  have h1 : (db.cve_cache.filter (fun r =>
      ¬(r.app_name = strToLower name ∧ r.app_version = ver))).filter
      (fun r => r.app_name = strToLower name ∧ r.app_version = ver) = [] := by
    rw [List.filter_eq_nil_iff]
    intro x hx
    have hm := (List.mem_filter.mp hx).2
    simp only [decide_not, Bool.not_eq_true', decide_eq_false_iff_not] at hm
    simp only [Bool.not_eq_true, decide_eq_false_iff_not]
    exact hm
  have h2 : (cves.map (toRow (strToLower name) ver t)).filter
      (fun r => r.app_name = strToLower name ∧ r.app_version = ver) =
      cves.map (toRow (strToLower name) ver t) := by
    rw [List.filter_eq_self]
    intro x hx
    rcases List.mem_map.mp hx with ⟨c, _, rfl⟩
    simp [toRow]
  rw [h1, h2, List.nil_append]

/-- Reading back a row written by `cache_cves` restores every field of the
record except `references`, which comes back empty. -/
theorem rowToCve_toRow (key ver : String) (t : ℤ) (r : CVERecord) :
    rowToCve (toRow key ver t r) = stripRefs r := by
  cases r with
  | mk id desc sev score pub lm av refs =>
    cases sev <;> by_cases hd : desc = "" <;>
      simp [rowToCve, toRow, stripRefs, Severity.value, severityOfValue, hd]

/-! # Claim C1 -/

/-- C1 counterexample: `cveDateThenPin` contains a matching vulnerable rule
pinning exactly the installed version `8.5.0`, yet `_cve_affects_version`
returns `false`, because the earlier wildcard rule's date-shaped boundary
triggers an early `return False` before the pinned rule is scanned.  The claim
"returns true regardless of any other rules present" is therefore false. -/
theorem c1_counterexample :
    isPinHit "mozilla" "firefox" "8.5.0" pinRule = true ∧
    pinRule ∈ flatMatches cveDateThenPin ∧
    cveAffectsVersion cveDateThenPin "mozilla" "firefox" "8.5.0" = false := by
  refine ⟨by decide, by decide, by decide⟩

/-- C1 amended: if some rule of the configuration matches the queried
vendor/product, is vulnerable, and pins exactly the installed version, then
`_cve_affects_version` returns true — provided no rule of the configuration is
a matching vulnerable wildcard rule with a date-shaped boundary while the
installed version is semver-shaped (the only rule shape that can produce an
early rejection). -/
theorem c1_pinned_version_applies (cve : CveData)
    (vendor product installed : String)
    (hpin : ∃ m ∈ flatMatches cve, isPinHit vendor product installed m = true)
    (hnodate : ∀ m ∈ flatMatches cve,
      ruleOut vendor product installed (semverShaped installed) m ≠
        .ret false) :
    cveAffectsVersion cve vendor product installed = true := by
  obtain ⟨m, hm, hpm⟩ := hpin
  have hne : flatMatches cve ≠ [] := by
    intro h
    rw [h] at hm
    simp at hm
  rw [cveAffectsVersion_eq_verdict,
    if_neg (flatMatches_ne_nil_configs cve hne)]
  exact scanVerdict_ret_true _ _ _ _ _ _ _
    ⟨m, hm, isPinHit_ruleOut _ _ _ _ m hpm⟩ hnodate

/-- C1 witness: a configuration holding only the pinned rule applies. -/
theorem c1_witness :
    cveAffectsVersion cvePinOnly "mozilla" "firefox" "8.5.0" = true :=
  c1_pinned_version_applies cvePinOnly "mozilla" "firefox" "8.5.0"
    ⟨pinRule, by decide, by decide⟩ (by decide)

/-! # Claim C2 -/

/-- C2 counterexample: `cvePinThenDate` contains a matching vulnerable
wildcard rule with a date-shaped boundary and the installed version `8.5.0` is
semver-shaped, yet the validator returns `true`, because the earlier pinned
rule short-circuits with `return True` before the date-boundary rule is
scanned.  The claim "returns false for that entry" for *every* such
configuration is therefore false. -/
theorem c2_counterexample :
    isDateRejectRule "mozilla" "firefox" "8.5.0" dateRule = true ∧
    dateRule ∈ flatMatches cvePinThenDate ∧
    semverShaped "8.5.0" = true ∧
    cveAffectsVersion cvePinThenDate "mozilla" "firefox" "8.5.0" = true := by
  refine ⟨by decide, by decide, by decide, by decide⟩

/-- C2 amended: a matching vulnerable wildcard rule with a date-shaped
boundary (installed version semver-shaped) makes the validator return false
provided it is the first rule in scan order that produces a decision; rules
before it may mismatch, be exclusions, or be matching vulnerable rules pinning
a different version, but not early-return. -/
theorem c2_date_reject_first_decisive (cve : CveData)
    (vendor product installed : String) (pre post : List CpeMatch)
    (bad : CpeMatch)
    (hflat : flatMatches cve = pre ++ bad :: post)
    (hbad : isDateRejectRule vendor product installed bad = true)
    (hpre : ∀ m ∈ pre, ∀ b,
      ruleOut vendor product installed (semverShaped installed) m ≠ .ret b) :
    cveAffectsVersion cve vendor product installed = false := by
  have hne : flatMatches cve ≠ [] := by
    rw [hflat]
    simp
  rw [cveAffectsVersion_eq_verdict,
    if_neg (flatMatches_ne_nil_configs cve hne), hflat]
  exact scanVerdict_ret_false _ _ _ _ bad
    (isDateRejectRule_ruleOut _ _ _ bad hbad) pre post false false hpre

/-- C2 witness: a configuration holding only the date-boundary rule is
rejected for the semver-shaped installed version `8.5.0`. -/
theorem c2_witness :
    cveAffectsVersion cveDateOnly "mozilla" "firefox" "8.5.0" = false :=
  c2_date_reject_first_decisive cveDateOnly "mozilla" "firefox" "8.5.0"
    [] [] dateRule rfl (by decide) (by simp)

/-! # Claim C3 -/

/-- C3: for a non-empty configuration in which no vulnerable rule applies to
the installed version (no rule early-returns `True`): if some matching rule is
explicitly not vulnerable the validator returns false, and if no rule mentions
the vendor/product at all it returns true. -/
theorem c3_exclusion_else_default (cve : CveData)
    (vendor product installed : String)
    (hcfg : cve.configurations ≠ [])
    (hnoapply : ∀ m ∈ flatMatches cve,
      ruleOut vendor product installed (semverShaped installed) m ≠
        .ret true) :
    ((∃ m ∈ flatMatches cve,
        matchesIdentity vendor product m = true ∧ m.vulnerable = false) →
      cveAffectsVersion cve vendor product installed = false) ∧
    ((∀ m ∈ flatMatches cve, matchesIdentity vendor product m = false) →
      cveAffectsVersion cve vendor product installed = true) := by
  constructor
  · rintro ⟨m, hm, hmi, hmv⟩
    rw [cveAffectsVersion_eq_verdict, if_neg hcfg]
    exact scanVerdict_excluded _ _ _ _ _ false false hnoapply
      (Or.inl ⟨m, hm, exclusion_ruleOut _ _ _ _ m hmi hmv⟩)
  · intro hall
    rw [cveAffectsVersion_eq_verdict, if_neg hcfg]
    unfold scanVerdict
    rw [scanMatches_all_skip _ _ _ _ _ _ _
      (fun m hm => matchesIdentity_false_skip _ _ _ _ m (hall m hm))]
    rfl

/-- C3 witness: a configuration holding only the exclusion rule does not
apply. -/
theorem c3_witness :
    cveAffectsVersion cveExclOnly "mozilla" "firefox" "8.5.0" = false :=
  (c3_exclusion_else_default cveExclOnly "mozilla" "firefox" "8.5.0"
    (by decide) (by decide)).1 ⟨exclRule, by decide, by decide, by decide⟩

/-! # Claim C5 -/

/-- C5 counterexample: the `cve_cache` schema has no `references` column, so a
stored record with a non-empty reference list is returned with
`references = []`; additionally two records sharing one CVE id collapse into
one row under the table's primary key.  The round-trip therefore does not
return "exactly R ... in particular references". -/
theorem c5_counterexample :
    getCachedCves (cacheCves emptyDb 0 "app" "1.0" [recWithRefs]) 0
      "app" "1.0" = some [stripRefs recWithRefs] ∧
    stripRefs recWithRefs ≠ recWithRefs ∧
    getCachedCves (cacheCves emptyDb 0 "app" "1.0" [recDupA, recDupB]) 0
      "app" "1.0" = some [stripRefs recDupB] ∧
    ([stripRefs recDupB] : List CVERecord) ≠ [recDupA, recDupB] := by
  refine ⟨by decide, by decide, by decide, by decide⟩

/-- C5 amended: storing and looking up within the TTL window returns
`found=true` and the stored records in order with every field preserved —
id, description, severity, score, timestamps, affected versions — except
`references`, which is returned as the empty list, provided the records carry
pairwise-distinct CVE ids (records sharing an id collapse under the cache's
primary key). -/
theorem c5_roundtrip_modulo_references (db : DbState) (name ver : String)
    (cves : List CVERecord) (t now : ℤ)
    (hdist : (cves.map CVERecord.cve_id).Nodup)
    (httl : now - t ≤ cacheTtlSeconds) :
    getCachedCves (cacheCves db t name ver cves) now name ver =
      some (cves.map stripRefs) := by
  rw [getCached_after_cache, if_neg (by omega),
    cache_rows db t name ver cves hdist, List.map_map]
  have hfun : rowToCve ∘ toRow (strToLower name) ver t = stripRefs :=
    funext (rowToCve_toRow (strToLower name) ver t)
  rw [hfun]

/-- C5 witness: a concrete store/lookup round trip within the TTL window. -/
theorem c5_witness :
    getCachedCves (cacheCves emptyDb 0 "Slack" "1.0" [recWithRefs]) 10
      "Slack" "1.0" = some [stripRefs recWithRefs] :=
  c5_roundtrip_modulo_references emptyDb "Slack" "1.0" [recWithRefs] 0 10
    (by decide) (by decide)

/-! # Claim C6 -/

/-- C6 counterexample: at exactly `t + TTL` the code's expiry test
`now - cached_at > TTL` still reports the entry as present, so the claimed
invariant "valid for reads only while `now - cachedAt < TTL`" fails at the
boundary. -/
theorem c6_counterexample :
    (getCachedCves (cacheCves emptyDb 0 "a" "1" []) cacheTtlSeconds
      "a" "1").isSome = true ∧
    ¬(cacheTtlSeconds - 0 < cacheTtlSeconds) := by
  refine ⟨by decide, by decide⟩

/-- C6 amended: an entry stored at `t` is found at every time strictly before
`t + TTL`, absent at every time strictly after `t + TTL`, and valid for reads
only while `now - cachedAt ≤ TTL` (the boundary instant inclusive); the TTL is
7 days. -/
theorem c6_ttl_expiry (db : DbState) (name ver : String)
    (cves : List CVERecord) (t now : ℤ) :
    (now < t + cacheTtlSeconds →
      (getCachedCves (cacheCves db t name ver cves) now name ver).isSome =
        true) ∧
    (now > t + cacheTtlSeconds →
      getCachedCves (cacheCves db t name ver cves) now name ver = none) ∧
    ((getCachedCves (cacheCves db t name ver cves) now name ver).isSome =
        true → now - t ≤ cacheTtlSeconds) ∧
    cacheTtlSeconds = 7 * 24 * 3600 := by
  refine ⟨?_, ?_, ?_, by decide⟩
  · intro h
    rw [getCached_after_cache, if_neg (by omega)]
    rfl
  · intro h
    rw [getCached_after_cache, if_pos (by omega)]
  · intro h
    rw [getCached_after_cache] at h
    by_contra hgt
    rw [if_pos (by omega)] at h
    cases h

/-- C6 witness: a concrete entry is still found one second before expiry. -/
theorem c6_witness :
    (getCachedCves (cacheCves emptyDb 0 "a" "1" []) (cacheTtlSeconds - 1)
      "a" "1").isSome = true :=
  (c6_ttl_expiry emptyDb "a" "1" [] 0 (cacheTtlSeconds - 1)).1 (by decide)

/-! # Lemmas about the batch scheduler -/

theorem foldl_results_fst
    (fetch : InstalledApp → Except String (List CVERecord))
    (g : List (ℕ × ℕ × String) → InstalledApp → List (ℕ × ℕ × String)) :
    ∀ (batch : List InstalledApp)
      (st : (String → Option (List CVERecord)) × List (ℕ × ℕ × String)),
      (batch.foldl (fun st x =>
        (dictInsert st.1 (appKey x) (fetchOutcome fetch x), g st.2 x)) st).1 =
        resultsAfter fetch batch st.1
  | [], _ => rfl
  | a :: batch, st => by
    rw [List.foldl_cons]
    exact foldl_results_fst fetch g batch
      (dictInsert st.1 (appKey a) (fetchOutcome fetch a), g st.2 a)

/-- The results dictionary of one batch ignores the events component. -/
theorem processBatch_fst
    (fetch : InstalledApp → Except String (List CVERecord))
    (total bs : ℕ) (batch : List InstalledApp)
    (st : (String → Option (List CVERecord)) × List (ℕ × ℕ × String)) :
    (processBatch fetch total bs batch st).1 = resultsAfter fetch batch st.1 :=
  foldl_results_fst fetch
    (fun ev x => ev ++ [(bs + batchIndexOf batch x + 1, total, x.name)])
    batch st

theorem resultsAfter_append
    (fetch : InstalledApp → Except String (List CVERecord))
    (xs ys : List InstalledApp) (acc : String → Option (List CVERecord)) :
    resultsAfter fetch (xs ++ ys) acc =
      resultsAfter fetch ys (resultsAfter fetch xs acc) :=
  List.foldl_append _ _ xs ys

/-- The whole scheduler's results dictionary equals the plain per-application
update fold over the concatenation of its batches. -/
theorem searchCvesBatch_fst_aux
    (fetch : InstalledApp → Except String (List CVERecord)) (total size : ℕ) :
    ∀ (chs : List (ℕ × List InstalledApp))
      (st : (String → Option (List CVERecord)) × List (ℕ × ℕ × String)),
      (chs.foldl (fun st p =>
        processBatch fetch total (p.1 * size) p.2 st) st).1 =
        resultsAfter fetch (chs.map Prod.snd).flatten st.1
  | [], _ => rfl
  | p :: chs, st => by
    rw [List.foldl_cons, List.map_cons, List.flatten_cons, resultsAfter_append,
      searchCvesBatch_fst_aux fetch total size chs
        (processBatch fetch total (p.1 * size) p.2 st),
      processBatch_fst]

theorem chunksAux_flatten (size : ℕ) (hsz : 0 < size) :
    ∀ (fuel : ℕ) (xs : List InstalledApp), xs.length ≤ fuel →
      (chunksAux size fuel xs).flatten = xs
  | 0, xs, h => by
    rw [List.length_eq_zero.mp (Nat.le_zero.mp h)]
    rfl
  | fuel + 1, [], _ => rfl
  | fuel + 1, x :: xs, h => by
    have hlen : ((x :: xs).drop size).length ≤ fuel := by
      rw [List.length_drop]
      simp only [List.length_cons] at h ⊢
      omega
    calc (chunksAux size (fuel + 1) (x :: xs)).flatten
        = (x :: xs).take size ++
            (chunksAux size fuel ((x :: xs).drop size)).flatten := rfl
      _ = (x :: xs).take size ++ (x :: xs).drop size :=
          by rw [chunksAux_flatten size hsz fuel _ hlen]
      _ = x :: xs := List.take_append_drop size (x :: xs)

theorem chunks_flatten (size : ℕ) (hsz : 0 < size)
    (apps : List InstalledApp) : (chunks size apps).flatten = apps :=
  chunksAux_flatten size hsz apps.length apps le_rfl

theorem searchCvesBatch_fst
    (fetch : InstalledApp → Except String (List CVERecord)) (size : ℕ)
    (hsz : 0 < size) (apps : List InstalledApp) :
    (searchCvesBatch fetch size apps).1 =
      resultsAfter fetch apps (fun _ => none) := by
  unfold searchCvesBatch
  rw [searchCvesBatch_fst_aux fetch apps.length size]
  rw [List.enum_map_snd, chunks_flatten size hsz]

theorem resultsAfter_not_key
    (fetch : InstalledApp → Except String (List CVERecord)) (k : String) :
    ∀ (as : List InstalledApp) (acc : String → Option (List CVERecord)),
      (∀ y ∈ as, appKey y ≠ k) → resultsAfter fetch as acc k = acc k
  | [], _, _ => rfl
  | a :: as, acc, h => by
    rw [show resultsAfter fetch (a :: as) acc =
      resultsAfter fetch as (dictInsert acc (appKey a) (fetchOutcome fetch a))
      from rfl]
    rw [resultsAfter_not_key fetch k as _
      (fun y hy => h y (List.mem_cons_of_mem a hy))]
    unfold dictInsert
    rw [if_neg (fun hk => h a (List.mem_cons_self a as) hk.symm)]

theorem resultsAfter_lookup
    (fetch : InstalledApp → Except String (List CVERecord)) :
    ∀ (as : List InstalledApp) (acc : String → Option (List CVERecord))
      (a : InstalledApp), a ∈ as →
      as.Pairwise (fun x y => appKey x ≠ appKey y) →
      resultsAfter fetch as acc (appKey a) = some (fetchOutcome fetch a)
  | [], _, a, ha, _ => absurd ha (List.not_mem_nil a)
  | x :: xs, acc, a, ha, hpw => by
    rcases List.mem_cons.mp ha with rfl | ha'
    · rw [show resultsAfter fetch (a :: xs) acc =
        resultsAfter fetch xs (dictInsert acc (appKey a) (fetchOutcome fetch a))
        from rfl]
      rw [resultsAfter_not_key fetch (appKey a) xs _
        (fun y hy hk => (List.pairwise_cons.mp hpw).1 y hy hk.symm)]
      unfold dictInsert
      rw [if_pos rfl]
    · exact resultsAfter_lookup fetch xs _ a ha'
        (List.pairwise_cons.mp hpw).2

/-! # Claim C7 -/

/-- C7: with a duplicate application in the batch, `batch.index(app)` returns
the first occurrence for both copies, so the progress callback fires with
`completedCount = 1` twice — once per application, but not strictly
increasing and never reaching `total`, contradicting the specified
`(1, ..., total)` progression.  The trace below evaluates the scheduler model
at that failing input. -/
theorem c7_duplicate_progress :
    (searchCvesBatch (fun _ => Except.ok []) batchSizeNoKey
      [slackApp, slackApp]).2 = [(1, 2, "slack"), (1, 2, "slack")] ∧
    (searchCvesBatch (fun _ => Except.ok []) batchSizeNoKey
      [slackApp, slackApp]).2 ≠ [(1, 2, "slack"), (2, 2, "slack")] := by
  refine ⟨by decide, by decide⟩

/-! # Claim C8 -/

/-- C8: failure isolation in a batch.  With pairwise-distinct result keys
(`f"{name}:{version}"`), every application — including every one whose fetch
raised — ends up with its own entry in the results dictionary: the fetch
result on success and `[]` on an exception.  No exception escapes: the model
is a total function, mirroring `gather(..., return_exceptions=True)` plus the
`isinstance(result, Exception)` branch. -/
theorem c8_failure_isolation
    (fetch : InstalledApp → Except String (List CVERecord)) (size : ℕ)
    (apps : List InstalledApp) (hsz : 0 < size)
    (hkeys : apps.Pairwise (fun x y => appKey x ≠ appKey y)) :
    ∀ a ∈ apps, (searchCvesBatch fetch size apps).1 (appKey a) =
      some (fetchOutcome fetch a) := by
  intro a ha
  rw [searchCvesBatch_fst fetch size hsz apps]
  exact resultsAfter_lookup fetch apps _ a ha hkeys

/-- C8 witness: in a two-application batch where the second fetch raises, the
failing application's entry is `[]`. -/
theorem c8_witness :
    (searchCvesBatch fetchFailOn2 batchSizeNoKey
      [slackApp, { slackApp with version := "2" }]).1
      (appKey { slackApp with version := "2" }) = some [] :=
  c8_failure_isolation fetchFailOn2 batchSizeNoKey
    [slackApp, { slackApp with version := "2" }] (by decide) (by decide)
    { slackApp with version := "2" } (by decide)

/-! # Claim C4 -/

/-! # Claim C4 -/

/-- C4: the validator is total and deterministic.  The embedding
`cveAffectsVersion` is a total Lean function over arbitrarily nested
configurations, nodes, cpeMatch entries, criteria strings and boundary values
(mirroring the Python code path for every input shape), so on every input it
yields one of the two booleans, and identical inputs yield identical
outputs. -/
theorem c4_total_deterministic (cve : CveData)
    (vendor product installed : String) :
    (cveAffectsVersion cve vendor product installed = true ∨
      cveAffectsVersion cve vendor product installed = false) ∧
    cveAffectsVersion cve vendor product installed =
      cveAffectsVersion cve vendor product installed := by
  refine ⟨?_, rfl⟩
  cases h : cveAffectsVersion cve vendor product installed
  · exact Or.inr rfl
  · exact Or.inl rfl

/-! # Lemmas about cache writes under a different or equal key -/

theorem find?_filter_of_imp {α : Type} (p q : α → Bool) (l : List α)
    (h : ∀ x, p x = true → q x = true) :
    (l.filter q).find? p = l.find? p := by
  induction l with
  | nil => rfl
  | cons x xs ih =>
    cases hq : q x
    · have hp : p x = false := by
        cases hpx : p x
        · rfl
        · rw [h x hpx] at hq; cases hq
      rw [List.filter_cons_of_neg (by rw [hq]; exact Bool.false_ne_true),
        List.find?_cons_of_neg _ (by simp [hp]), ih]
    · rw [List.filter_cons_of_pos hq]
      cases hp : p x
      · rw [List.find?_cons_of_neg _ (by simp [hp]),
          List.find?_cons_of_neg _ (by simp [hp]), ih]
      · rw [List.find?_cons_of_pos _ hp, List.find?_cons_of_pos _ hp]

theorem filter_foldl_insert (p : CveRow → Bool) (key ver : String) (t : ℤ)
    (hp : ∀ c : CVERecord, p (toRow key ver t c) = false)
    (hcompat : ∀ x, p x = true →
      ¬(x.app_name = key ∧ x.app_version = ver)) :
    ∀ (cves : List CVERecord) (acc : List CveRow),
      ((cves.foldl (fun rows cve =>
        insertOrReplaceCve rows (toRow key ver t cve)) acc).filter p) =
        acc.filter p
  | [], _ => rfl
  | c :: cs, acc => by
    rw [List.foldl_cons,
      filter_foldl_insert p key ver t hp hcompat cs
        (insertOrReplaceCve acc (toRow key ver t c))]
    unfold insertOrReplaceCve
    rw [List.filter_append, List.filter_filter]
    have h1 : (acc.filter (fun x => p x &&
        ¬(x.app_name = (toRow key ver t c).app_name ∧
          x.app_version = (toRow key ver t c).app_version ∧
          x.cve_id = (toRow key ver t c).cve_id))) = acc.filter p := by
      apply List.filter_congr
      intro x _
      cases hpx : p x
      · rfl
      · have hnk := hcompat x hpx
        simp only [toRow, Bool.true_and, decide_not, Bool.not_eq_true',
          decide_eq_false_iff_not]
        intro hcon
        exact hnk ⟨hcon.1, hcon.2.1⟩
    have h2 : ([toRow key ver t c].filter p) = [] := by
      rw [List.filter_cons_of_neg (by rw [hp c]; exact Bool.false_ne_true)]
      rfl
    rw [h1, h2, List.append_nil]

/-- `getCached_after_cache`, generalised to a lookup under a name with the
same lowercasing. -/
theorem getCached_after_cache' (db : DbState) (t now : ℤ)
    (n1 n2 ver : String) (cves : List CVERecord)
    (hk : strToLower n1 = strToLower n2) :
    getCachedCves (cacheCves db t n2 ver cves) now n1 ver =
      if now - t > cacheTtlSeconds then none
      else some (((cacheCves db t n2 ver cves).cve_cache.filter
        (fun r => r.app_name = strToLower n2 ∧ r.app_version = ver)).map
          rowToCve) := by
  unfold getCachedCves
  rw [hk]
  have h := getCached_after_cache db t now n2 ver cves
  unfold getCachedCves at h
  exact h

/-- A `cache_cves` write under an unrelated key leaves a lookup unchanged. -/
theorem getCached_preserved (db : DbState) (t now : ℤ)
    (n1 v1 n2 v2 : String) (cves : List CVERecord)
    (hne : ¬(strToLower n1 = strToLower n2 ∧ v1 = v2)) :
    getCachedCves (cacheCves db t n2 v2 cves) now n1 v1 =
      getCachedCves db now n1 v1 := by
  unfold getCachedCves
  have hlc : (cacheCves db t n2 v2 cves).lookup_cache =
      db.lookup_cache.filter (fun r =>
        ¬(r.app_name = strToLower n2 ∧ r.app_version = v2)) ++
      [⟨strToLower n2, v2, t⟩] := rfl
  have himp : ∀ x : LookupRow,
      decide (x.app_name = strToLower n1 ∧ x.app_version = v1) = true →
      decide (¬(x.app_name = strToLower n2 ∧ x.app_version = v2)) = true := by
    intro x hx
    simp only [decide_eq_true_eq] at hx
    simp only [decide_not, Bool.not_eq_true', decide_eq_false_iff_not]
    rintro ⟨h1, h2⟩
    exact hne ⟨hx.1 ▸ h1, hx.2 ▸ h2⟩
  have hrow : List.find? (fun r =>
      r.app_name = strToLower n1 ∧ r.app_version = v1)
      [(⟨strToLower n2, v2, t⟩ : LookupRow)] = none := by
    rw [List.find?_eq_none]
    intro x hx
    rcases List.mem_singleton.mp hx with rfl
    simp only [Bool.not_eq_true, decide_eq_false_iff_not]
    rintro ⟨h1, h2⟩
    exact hne ⟨h1.symm, h2.symm⟩
  rw [hlc, List.find?_append, find?_filter_of_imp _ _ _ himp, hrow,
    Option.or_none]
  cases hf : List.find? (fun r =>
      r.app_name = strToLower n1 ∧ r.app_version = v1) db.lookup_cache with
  | none => rfl
  | some row =>
    have hcve : ((cacheCves db t n2 v2 cves).cve_cache.filter
        (fun r => r.app_name = strToLower n1 ∧ r.app_version = v1)) =
        db.cve_cache.filter
          (fun r => r.app_name = strToLower n1 ∧ r.app_version = v1) := by
      have hcc : (cacheCves db t n2 v2 cves).cve_cache =
          cves.foldl (fun rows cve =>
            insertOrReplaceCve rows (toRow (strToLower n2) v2 t cve))
            (db.cve_cache.filter (fun r =>
              ¬(r.app_name = strToLower n2 ∧ r.app_version = v2))) := rfl
      rw [hcc, filter_foldl_insert _ _ _ _
        (by
          intro c
          simp only [toRow, decide_eq_false_iff_not]
          rintro ⟨h1, h2⟩
          exact hne ⟨h1.symm, h2.symm⟩)
        (by
          intro x hx
          simp only [decide_eq_true_eq] at hx
          rintro ⟨h1, h2⟩
          exact hne ⟨hx.1 ▸ h1, hx.2 ▸ h2⟩)
        cves _]
      rw [List.filter_filter]
      apply List.filter_congr
      intro x _
      cases hpx : decide (x.app_name = strToLower n1 ∧ x.app_version = v1)
      · rfl
      · simp only [decide_eq_true_eq] at hpx
        simp only [Bool.true_and, decide_not, Bool.not_eq_true',
          decide_eq_false_iff_not]
        rintro ⟨h1, h2⟩
        exact hne ⟨hpx.1 ▸ h1, hpx.2 ▸ h2⟩
    rw [hcve]

/-- A `cache_cves` write of the empty list is immediately readable as
`some []` through any name with the same lowercase key. -/
theorem getCached_same_key_nil (db : DbState) (t now : ℤ)
    (n1 n2 ver : String) (hk : strToLower n1 = strToLower n2)
    (httl : now - t ≤ cacheTtlSeconds) :
    getCachedCves (cacheCves db t n2 ver []) now n1 ver = some [] := by
  rw [getCached_after_cache' db t now n1 n2 ver [] hk, if_neg (by omega),
    cache_rows db t n2 ver [] List.nodup_nil]
  rfl

/-! # Lemmas about the classification loop of the scan -/

/-- One classification step either leaves a key's cached value unchanged or
sets it to the freshly stored empty list. -/
theorem classifyStep_cache (now : ℤ) (n v : String) (st : ClassifyState)
    (a : InstalledApp) :
    getCachedCves (classifyStep now st a).1 now n v =
      getCachedCves st.1 now n v ∨
    getCachedCves (classifyStep now st a).1 now n v = some [] := by
  unfold classifyStep
  cases hc : getCachedCves st.1 now a.name a.version with
  | some cached => exact Or.inl rfl
  | none =>
    cases hk : hasKnownCpe a
    · rw [if_neg Bool.false_ne_true]
      by_cases hsame : strToLower n = strToLower a.name ∧ v = a.version
      · right
        rcases hsame with ⟨h1, h2⟩
        rw [h2]
        exact getCached_same_key_nil st.1 now now n a.name a.version h1
          (by have h0 : (0 : ℤ) ≤ cacheTtlSeconds := by decide
              omega)
      · left
        exact getCached_preserved st.1 now now n v a.name a.version [] hsame
    · rw [if_pos rfl]
      exact Or.inl rfl

theorem classify_fold_keep_nil (now : ℤ) (n v : String) :
    ∀ (apps : List InstalledApp) (st : ClassifyState),
      getCachedCves st.1 now n v = some [] →
      getCachedCves (apps.foldl (classifyStep now) st).1 now n v = some []
  | [], _, h => h
  | a :: apps, st, h => by
    rw [List.foldl_cons]
    apply classify_fold_keep_nil now n v apps
    rcases classifyStep_cache now n v st a with heq | heq
    · rw [heq]; exact h
    · exact heq

theorem classify_fold_inv (now : ℤ) (n v : String) :
    ∀ (apps : List InstalledApp) (st : ClassifyState),
      (getCachedCves st.1 now n v = none ∨
        getCachedCves st.1 now n v = some []) →
      (getCachedCves (apps.foldl (classifyStep now) st).1 now n v = none ∨
        getCachedCves (apps.foldl (classifyStep now) st).1 now n v = some [])
  | [], _, h => h
  | a :: apps, st, h => by
    rw [List.foldl_cons]
    apply classify_fold_inv now n v apps
    rcases classifyStep_cache now n v st a with heq | heq
    · rw [heq]; exact h
    · exact Or.inr heq

/-- Applications enter `to_query` only through the known-identity branch. -/
theorem classify_fold_toQuery (now : ℤ) :
    ∀ (apps : List InstalledApp) (st : ClassifyState),
      (∀ x ∈ st.2.2, hasKnownCpe x = true) →
      ∀ x ∈ (apps.foldl (classifyStep now) st).2.2, hasKnownCpe x = true
  | [], _, h => h
  | a :: apps, st, h => by
    rw [List.foldl_cons]
    apply classify_fold_toQuery now apps
    unfold classifyStep
    cases hc : getCachedCves st.1 now a.name a.version with
    | some cached => exact h
    | none =>
      cases hk : hasKnownCpe a
      · rw [if_neg Bool.false_ne_true]
        exact h
      · rw [if_pos rfl]
        intro x hx
        rcases List.mem_append.mp hx with hx' | hx'
        · exact h x hx'
        · rcases List.mem_singleton.mp hx' with rfl
          exact hk

/-- Processing an application with no known identity whose key is cached as
nothing or as the empty list leaves that key cached as the empty list. -/
theorem classifyStep_unknown (now : ℤ) (st : ClassifyState)
    (a : InstalledApp) (hk : hasKnownCpe a = false)
    (h : getCachedCves st.1 now a.name a.version = none ∨
      getCachedCves st.1 now a.name a.version = some []) :
    getCachedCves (classifyStep now st a).1 now a.name a.version =
      some [] := by
  unfold classifyStep
  rcases h with hnone | hnil
  · rw [hnone, if_neg (by rw [hk]; exact Bool.false_ne_true)]
    exact getCached_same_key_nil st.1 now now a.name a.name a.version rfl
      (by have h0 : (0 : ℤ) ≤ cacheTtlSeconds := by decide
          omega)
  · rw [hnil]
    exact hnil

/-! # Claim C9 -/

/-- C9: an application whose lowercased name is absent from the resolver
table and that has no valid cache entry ends the classification loop with an
empty record list cached under its key, is never added to the `to_query` list
(so no remote fetch is issued for it), and `has_known_cpe` returns false for
it. -/
theorem c9_unknown_identity (apps : List InstalledApp) (db : DbState)
    (now : ℤ) (app : InstalledApp) (hmem : app ∈ apps)
    (hunk : hasKnownCpe app = false)
    (hnocache : getCachedCves db now app.name app.version = none) :
    getCachedCves (classifyApps now db apps).1 now app.name app.version =
      some [] ∧
    app ∉ (classifyApps now db apps).2.2 ∧
    hasKnownCpe app = false := by
  refine ⟨?_, ?_, hunk⟩
  · obtain ⟨l1, l2, rfl⟩ := List.append_of_mem hmem
    unfold classifyApps
    rw [List.foldl_append, List.foldl_cons]
    apply classify_fold_keep_nil
    exact classifyStep_unknown now (l1.foldl (classifyStep now) (db, [], []))
      app hunk
      (classify_fold_inv now app.name app.version l1 (db, [], [])
        (Or.inl hnocache))
  · intro hq
    have hall := classify_fold_toQuery now apps (db, [], [])
      (fun x hx => absurd hx (List.not_mem_nil x)) app hq
    rw [hunk] at hall
    cases hall

/-- C9 witness: the `("UnknownTool","1.0")` scenario on an empty database. -/
theorem c9_witness :
    getCachedCves (classifyApps 0 emptyDb [unknownApp]).1 0
      unknownApp.name unknownApp.version = some [] ∧
    unknownApp ∉ (classifyApps 0 emptyDb [unknownApp]).2.2 ∧
    hasKnownCpe unknownApp = false :=
  c9_unknown_identity [unknownApp] emptyDb 0 unknownApp
    (List.mem_singleton.mpr rfl) (by decide) (by decide)

/-! # Lemmas about the age filter -/

theorem filterOldCves_sublist (cutoff : ℤ) :
    ∀ cves : List CVERecord, (filterOldCves cutoff cves).Sublist cves
  | [] => List.Sublist.refl []
  | c :: rest => by
    unfold filterOldCves
    cases hp : c.published with
    | none => exact (filterOldCves_sublist cutoff rest).cons₂ c
    | some p =>
      dsimp only
      by_cases hge : p ≥ cutoff
      · rw [if_pos hge]
        exact (filterOldCves_sublist cutoff rest).cons₂ c
      · rw [if_neg hge]
        exact (filterOldCves_sublist cutoff rest).cons c

theorem filterOldCves_keep_none (cutoff : ℤ) :
    ∀ (cves : List CVERecord) (c : CVERecord), c ∈ cves →
      c.published = none → c ∈ filterOldCves cutoff cves
  | [], c, hc, _ => absurd hc (List.not_mem_nil c)
  | x :: rest, c, hc, hp => by
    unfold filterOldCves
    rcases List.mem_cons.mp hc with rfl | hc'
    · rw [hp]
      exact List.mem_cons_self c (filterOldCves cutoff rest)
    · cases hx : x.published with
      | none =>
        exact List.mem_cons_of_mem x
          (filterOldCves_keep_none cutoff rest c hc' hp)
      | some p =>
        dsimp only
        by_cases hge : p ≥ cutoff
        · rw [if_pos hge]
          exact List.mem_cons_of_mem x
            (filterOldCves_keep_none cutoff rest c hc' hp)
        · rw [if_neg hge]
          exact filterOldCves_keep_none cutoff rest c hc' hp

theorem filterOldCves_dropped (cutoff : ℤ) :
    ∀ (cves : List CVERecord) (c : CVERecord), c ∈ cves →
      c ∉ filterOldCves cutoff cves →
      ∃ p, c.published = some p ∧ p < cutoff
  | [], c, hc, _ => absurd hc (List.not_mem_nil c)
  | x :: rest, c, hc, hnot => by
    unfold filterOldCves at hnot
    rcases List.mem_cons.mp hc with rfl | hc'
    · cases hx : c.published with
      | none =>
        rw [hx] at hnot
        exact absurd (List.mem_cons_self c _) hnot
      | some p =>
        rw [hx] at hnot
        dsimp only at hnot
        by_cases hge : p ≥ cutoff
        · rw [if_pos hge] at hnot
          exact absurd (List.mem_cons_self c _) hnot
        · exact ⟨p, rfl, by omega⟩
    · apply filterOldCves_dropped cutoff rest c hc'
      intro hmem
      apply hnot
      cases hx : x.published with
      | none => exact List.mem_cons_of_mem x hmem
      | some p =>
        dsimp only
        by_cases hge : p ≥ cutoff
        · rw [if_pos hge]
          exact List.mem_cons_of_mem x hmem
        · rw [if_neg hge]
          exact hmem

/-! # Claim C10 -/

/-- C10: the age filter retains every record with no published timestamp,
discards a record only when its published timestamp is strictly older than
the 4-year cutoff, and preserves the relative order of retained records
(the output is a sublist of the input). -/
theorem c10_age_filter (now : ℤ) (cves : List CVERecord) :
    (∀ c ∈ cves, c.published = none →
      c ∈ filterOldCves (ageCutoff now) cves) ∧
    (∀ c ∈ cves, c ∉ filterOldCves (ageCutoff now) cves →
      ∃ p, c.published = some p ∧ p < ageCutoff now) ∧
    (filterOldCves (ageCutoff now) cves).Sublist cves :=
  ⟨fun c hc hp => filterOldCves_keep_none _ cves c hc hp,
   fun c hc hn => filterOldCves_dropped _ cves c hc hn,
   filterOldCves_sublist _ cves⟩

/-- C10 witness: a record with no published date survives the filter. -/
theorem c10_witness :
    recWithRefs ∈ filterOldCves (ageCutoff 0) [recWithRefs] :=
  (c10_age_filter 0 [recWithRefs]).1 recWithRefs
    (List.mem_singleton.mpr rfl) rfl

end CveWatch
